import Mathlib

/-!
Verification of the cost-center / team sync script
(`sync_cost_center_with_teams.py`) against its natural-language design
document.  Python values appearing in API payloads are modelled by a
small JSON type; Python dictionaries are modelled as association lists
looked up by first match; machine-level concerns (HTTP transport,
logging) are modelled by explicit response oracles.
-/

set_option maxRecDepth 4000

/-- JSON values as decoded by `resp.json()` in the script.  Python
numbers are modelled by integers (no claim involves fractional
values). -/
inductive Json where
  | null : Json
  | bool (b : Bool) : Json
  | num (n : Int) : Json
  | str (s : String) : Json
  | arr (xs : List Json) : Json
  | obj (fields : List (String × Json)) : Json

/-- Python truthiness (`if x:`) for JSON values: `None`, `False`, `0`,
`""`, `[]` and `{}` are falsy, everything else is truthy. -/
def Json.truthy : Json → Bool
  | .null => false
  | .bool b => b
  | .num n => n != 0
  | .str s => s != ""
  | .arr xs => !xs.isEmpty
  | .obj fs => !fs.isEmpty

/-- `d.get(k)` on a Python dict modelled as an association list
(first matching key wins; a well-formed dict has distinct keys). -/
def pyLookup (fields : List (String × Json)) (k : String) : Option Json :=
  (fields.find? (fun kv => kv.1 == k)).map (fun kv => kv.2)

/-! ## `parse_next_link` — pagination link extraction (source lines 12–23)

Python string operations are modelled on `List Char`:
`s.split(",")`, `s.strip()`, `needle in s`, `s.find(c)` and the slice
`s[a:b]` (used here only with `0 ≤ a ≤ b ≤ len s`). -/

/-- `s.split(sep)` for a one-character separator, accumulator form. -/
def pySplitAux (sep : Char) : List Char → List Char → List (List Char)
  | [], acc => [acc.reverse]
  | c :: cs, acc =>
    if c = sep then acc.reverse :: pySplitAux sep cs [] else pySplitAux sep cs (c :: acc)

/-- Python `s.split(sep)` for a one-character separator. -/
def pySplit (sep : Char) (l : List Char) : List (List Char) :=
  pySplitAux sep l []

/-- Whitespace characters recognised by `str.strip()` (the subset that
can occur in link headers). -/
def isSpc (c : Char) : Bool :=
  c = ' ' || c = '\t' || c = '\n' || c = '\r'

/-- Python `s.strip()`. -/
def pyStrip (l : List Char) : List Char :=
  ((l.dropWhile isSpc).reverse.dropWhile isSpc).reverse

/-- Does `hay` start with `needle`? (helper for the substring test). -/
def hasLead : List Char → List Char → Bool
  | [], _ => true
  | _ :: _, [] => false
  | a :: as, b :: bs => a == b && hasLead as bs

/-- Python `needle in hay` substring containment. -/
def hasSub (needle : List Char) : List Char → Bool
  | [] => needle.isEmpty
  | c :: rest => hasLead needle (c :: rest) || hasSub needle rest

/-- Helper for Python `s.find(c)`: index of the first occurrence. -/
def pyFindAux (c : Char) : List Char → Nat → Option Nat
  | [], _ => none
  | x :: xs, i => if x = c then some i else pyFindAux c xs (i + 1)

/-- Python `s.find(c)`: first index of `c`, or `-1` when absent. -/
def pyFind (c : Char) (l : List Char) : Int :=
  match pyFindAux c l 0 with
  | some n => (n : Int)
  | none => -1

/-- Python slice `s[a:b]`, for the in-range non-negative indices at
which the script uses it. -/
def pySlice (l : List Char) (a b : Int) : List Char :=
  (l.drop a.toNat).take (b.toNat - a.toNat)

/-- The literal `rel="next"` searched for in each link descriptor. -/
def relNextChars : List Char :=
  ['r', 'e', 'l', '=', '"', 'n', 'e', 'x', 't', '"']

/-- The `for part in parts` loop of `parse_next_link`: the first part
containing `rel="next"` whose first `<` precedes its first `>` yields
the slice between them; otherwise scanning continues. -/
def scanParts : List (List Char) → Option (List Char)
  | [] => none
  | part :: rest =>
    if hasSub relNextChars part then
      let start : Int := pyFind '<' part + 1
      let stop : Int := pyFind '>' part
      if 0 < start ∧ start < stop then some (pySlice part start stop)
      else scanParts rest
    else scanParts rest

/-- `parse_next_link` (source lines 12–23).  The argument is the raw
`Link` header, `none` when the header is absent; `if not link_header`
also catches the empty string. -/
def parse_next_link (link_header : Option String) : Option String :=
  match link_header with
  | none => none
  | some s =>
    if s.data.isEmpty then none
    else (scanParts ((pySplit ',' s.data).map pyStrip)).map (fun cs => String.mk cs)

/-! ## `extract_memberships` — response-shape normalisation (lines 26–40) -/

/-- The `for key in ("memberships", "items", "value", "data")` loop:
the first listed key whose value is a list. -/
def prioScan (fields : List (String × Json)) : List String → Option (List Json)
  | [] => none
  | k :: ks =>
    match pyLookup fields k with
    | some (.arr xs) => some xs
    | _ => prioScan fields ks

/-- The `for v in payload.values()` fallback loop: the first value that
is a list which is empty or whose first element is a dict. -/
def scanValues : List (String × Json) → Option (List Json)
  | [] => none
  | (_, v) :: rest =>
    match v with
    | .arr [] => some []
    | .arr (Json.obj f :: xs) => some (Json.obj f :: xs)
    | _ => scanValues rest

/-- `extract_memberships` (source lines 26–40). -/
def extract_memberships (payload : Json) : List Json :=
  match payload with
  | .arr xs => xs
  | .obj fields =>
    match prioScan fields ["memberships", "items", "value", "data"] with
    | some xs => xs
    | none =>
      match scanValues fields with
      | some xs => xs
      | none => []
  | _ => []

/-- The per-record login extraction in `fetch_enterprise_team_members`
(source lines 87–99): `user = m.get("user") or {}`, then
`user.get("login")` when `user` is a dict, then `login or m.get("login")`,
and finally `if login:` guards the insertion.  Returns the value added
to the login set, or `none` when the record is skipped. -/
def extractLogin (m : Json) : Option Json :=
  match m with
  | .obj fields =>
    let user : Json :=
      match pyLookup fields "user" with
      | some u => if u.truthy then u else .obj []
      | none => .obj []
    let login1 : Option Json :=
      match user with
      | .obj ufields => pyLookup ufields "login"
      | _ => none
    let login2 : Option Json :=
      match login1 with
      | some l => if l.truthy then some l else pyLookup fields "login"
      | none => pyLookup fields "login"
    match login2 with
    | some l => if l.truthy then some l else none
    | none => none
  | _ => none

/-! ## `fetch_cost_center_members` body — user extraction (lines 139–160)

The Python here can raise: `data.get(...)` on a non-dict raises
`AttributeError`, `"resources" in data` on a non-container raises
`TypeError`, and `for user in users` on a non-iterable raises
`TypeError`.  These exceptions propagate out of the fetch (the caller
aborts the run), so the extraction is modelled in `Except`. -/

/-- Python `key in data`: key lookup for dicts, element membership for
lists, substring containment for strings; `TypeError` otherwise. -/
def pyContains (data : Json) (key : String) : Except String Bool :=
  match data with
  | .obj fields => .ok (pyLookup fields key).isSome
  | .arr xs => .ok (xs.any (fun x => match x with | .str s => s == key | _ => false))
  | .str s => .ok (hasSub key.data s.data)
  | _ => .error "TypeError: argument of type is not iterable"

/-- Python `data.get(key, default)`: only dicts have `.get`, anything
else raises `AttributeError`. -/
def pyGet (data : Json) (key : String) (dflt : Json) : Except String Json :=
  match data with
  | .obj fields => .ok ((pyLookup fields key).getD dflt)
  | _ => .error "AttributeError: object has no attribute get"

/-- Python `for x in v`: lists yield their elements, strings their
characters, dicts their keys; `TypeError` otherwise. -/
def pyIterate (v : Json) : Except String (List Json) :=
  match v with
  | .arr xs => .ok xs
  | .str s => .ok (s.data.map (fun c => Json.str (String.mk [c])))
  | .obj fields => .ok (fields.map (fun kv => Json.str kv.1))
  | _ => .error "TypeError: object is not iterable"

/-- The per-entry body of both user loops in `fetch_cost_center_members`
(lines 145–151 and 154–160): `login = user.get("login") or
user.get("username")` for dict entries, the bare value otherwise, then
`if login:`.  Returns the value added to the login set, if any. -/
def userLogin (user : Json) : Option Json :=
  match user with
  | .obj fields =>
    let login : Option Json :=
      match pyLookup fields "login" with
      | some l => if l.truthy then some l else pyLookup fields "username"
      | none => pyLookup fields "username"
    match login with
    | some l => if l.truthy then some l else none
    | none => none
  | u => if u.truthy then some u else none

/-- User extraction of `fetch_cost_center_members` (source lines
139–160), applied to the decoded 200-status body.  The built Python
set is modelled as the list of values inserted into it, in insertion
order (no claim depends on deduplication). -/
def cost_center_logins (data : Json) : Except String (List Json) :=
  match pyContains data "resources" with
  | .error e => .error e
  | .ok true =>
    match pyGet data "resources" (.obj []) with
    | .error e => .error e
    | .ok resources =>
      match pyGet resources "users" (.arr []) with
      | .error e => .error e
      | .ok users =>
        match pyIterate users with
        | .error e => .error e
        | .ok entries => .ok (entries.filterMap userLogin)
  | .ok false =>
    match pyContains data "users" with
    | .error e => .error e
    | .ok true =>
      match pyGet data "users" (.arr []) with
      | .error e => .error e
      | .ok users =>
        match pyIterate users with
        | .error e => .error e
        | .ok entries => .ok (entries.filterMap userLogin)
    | .ok false => .ok []

/-! ## Transport model, mutation operations, and the sync orchestrator -/

/-- An HTTP response as the script consumes it: status code, decoded
JSON body (`none` models a body `resp.json()` fails on), and the raw
`Link` header (`none` when absent). -/
structure Response where
  status_code : Nat
  body : Option Json
  link : Option String

/-- `add_user_to_cost_center` (source lines 166–185): POST, success
iff the status code is in `(200, 201, 204)`. -/
def add_user_to_cost_center (resp : Response) : Bool :=
  resp.status_code == 200 || resp.status_code == 201 || resp.status_code == 204

/-- `remove_user_from_cost_center` (source lines 188–207): DELETE,
success iff the status code is in `(200, 204)`. -/
def remove_user_from_cost_center (resp : Response) : Bool :=
  resp.status_code == 200 || resp.status_code == 204

/-- One attempted mutation, with the username and whether the
operation reported success. -/
inductive MutEvent where
  | remove (user : String) (ok : Bool)
  | add (user : String) (ok : Bool)
deriving DecidableEq

def MutEvent.isRemove : MutEvent → Bool
  | .remove _ _ => true
  | .add _ _ => false

def MutEvent.isAdd : MutEvent → Bool
  | .remove _ _ => false
  | .add _ _ => true

/-- The username of a remove event. -/
def removeUserOf : MutEvent → Option String
  | .remove u _ => some u
  | .add _ _ => none

/-- The username of an add event. -/
def addUserOf : MutEvent → Option String
  | .remove _ _ => none
  | .add u _ => some u

/-- Result of one sync run past the fetches: the computed differences,
the ordered trace of attempted mutations, and the success counters. -/
structure SyncReport where
  to_remove : Finset String
  to_add : Finset String
  trace : List MutEvent
  removed_count : Nat
  added_count : Nat

/-- `sync_cost_center_with_team` from the two fetched membership sets
onward (source lines 227–270).  `removeResp u` / `addResp u` are the
responses the transport returns for the DELETE / POST issued for user
`u`; identifiers are strings (spec §3).  Phase order, per-user
iteration order (`sorted(...)`, lexicographic) and the success
counters mirror the source. -/
def sync_cost_center_with_team (team_members cost_center_members : Finset String)
    (removeResp addResp : String → Response) : SyncReport :=
  let to_remove := cost_center_members \ team_members
  let to_add := team_members \ cost_center_members
  let removeEvents := (to_remove.sort (· ≤ ·)).map
    (fun u => MutEvent.remove u (remove_user_from_cost_center (removeResp u)))
  let addEvents := (to_add.sort (· ≤ ·)).map
    (fun u => MutEvent.add u (add_user_to_cost_center (addResp u)))
  { to_remove := to_remove
    to_add := to_add
    trace := removeEvents ++ addEvents
    removed_count := removeEvents.countP (fun e => match e with | .remove _ ok => ok | _ => false)
    added_count := addEvents.countP (fun e => match e with | .add _ ok => ok | _ => false) }

/-! ## Membership fetchers (lines 52–109 and 112–163) -/

/-- Endpoint template for team memberships (line 59). -/
def teamMembershipsUrl (base enterprise team_slug : String) : String :=
  base ++ "/enterprises/" ++ enterprise ++ "/teams/" ++ team_slug ++ "/memberships"

/-- Endpoint template for the cost-center detail (line 119). -/
def costCenterUrl (base enterprise cost_center_id : String) : String :=
  base ++ "/enterprises/" ++ enterprise ++ "/settings/billing/cost-centers/" ++ cost_center_id

/-- One iteration of the pagination loop up to the cursor (source
lines 69–101): fatal on non-200 status, fatal on a non-JSON body,
otherwise the page's membership records and the parsed next cursor. -/
def teamPageStep (resp : Response) : Except String (List Json × Option String) :=
  if resp.status_code ≠ 200 then
    .error ("Failed to fetch team memberships: HTTP " ++ toString resp.status_code)
  else
    match resp.body with
    | none => .error "Non-JSON response from API"
    | some payload => .ok (extract_memberships payload, parse_next_link resp.link)

/-- Folding one page's records into the login set (lines 87–99).
Identifiers are modelled as strings (spec §3: a `UserIdentifier` is a
string token); a truthy non-string login is outside this model. -/
def addTeamLogins (acc : Finset String) (ms : List Json) : Finset String :=
  ms.foldl (fun a m =>
    match extractLogin m with
    | some (.str s) => insert s a
    | _ => a) acc

/-- The `while next_url` pagination loop (source lines 68–106).  The
fuel counts the pages the `page > 200` guard still allows after the
current one: page `p` of the source runs at fuel `200 - p`, so at fuel
`0` (page 200) the loop breaks after processing even when a next
cursor exists — the 200-page safety cap.  The returned number counts
the page fetches performed. -/
def fetchTeamLoop (http : String → Response) :
    Nat → String → Finset String → Except String (Finset String × Nat)
  | 0, url, acc =>
    match teamPageStep (http url) with
    | .error e => .error e
    | .ok (ms, _) => .ok (addTeamLogins acc ms, 1)
  | fuel + 1, url, acc =>
    match teamPageStep (http url) with
    | .error e => .error e
    | .ok (ms, none) => .ok (addTeamLogins acc ms, 1)
    | .ok (ms, some nextUrl) =>
      match fetchTeamLoop http fuel nextUrl (addTeamLogins acc ms) with
      | .ok (s, n) => .ok (s, n + 1)
      | .error e => .error e

/-- `fetch_enterprise_team_members` (source lines 52–109), returning
the login set and the number of page fetches.  The loop starts at
page 1, i.e. fuel 199: at most 200 pages. -/
def fetch_enterprise_team_members (http : String → Response)
    (base enterprise team_slug : String) : Except String (Finset String × Nat) :=
  fetchTeamLoop http 199 (teamMembershipsUrl base enterprise team_slug) ∅

/-- Keep the string logins of the modelled Python set (spec §3:
identifiers are strings). -/
def strLogin : Json → Option String
  | .str s => some s
  | _ => none

/-- `fetch_cost_center_members` (source lines 112–163): fatal on
non-200 status or non-JSON body, then the user extraction (which may
itself raise, propagating as a fatal error). -/
def fetch_cost_center_members (http : String → Response)
    (base enterprise cost_center_id : String) : Except String (Finset String) :=
  let resp := http (costCenterUrl base enterprise cost_center_id)
  if resp.status_code ≠ 200 then
    .error ("Failed to fetch cost center: HTTP " ++ toString resp.status_code)
  else
    match resp.body with
    | none => .error "Non-JSON response from cost center API"
    | some data =>
      match cost_center_logins data with
      | .error e => .error e
      | .ok ls => .ok (ls.filterMap strLogin).toFinset

/-- Did the operation abort with a fatal error? -/
def isFatal : Except String α → Bool
  | .error _ => true
  | .ok _ => false

/-- The whole run of `sync_cost_center_with_team` (source lines
210–279): fetch the team, fetch the cost center, then compute the plan
and drive the mutations.  Returns the mutation trace (empty whenever
the run aborts before the mutation phases) together with either the
final `(removed, added)` counters or the fatal error. -/
def run_sync (http : String → Response) (removeResp addResp : String → Response)
    (base enterprise team_slug cost_center_id : String) :
    List MutEvent × Except String (Nat × Nat) :=
  match fetch_enterprise_team_members http base enterprise team_slug with
  | .error e => ([], .error e)
  | .ok (team_members, _) =>
    match fetch_cost_center_members http base enterprise cost_center_id with
    | .error e => ([], .error e)
    | .ok cost_center_members =>
      let r := sync_cost_center_with_team team_members cost_center_members removeResp addResp
      (r.trace, .ok (r.removed_count, r.added_count))

/-! ## Helper lemmas about the mutation phases -/

lemma filterMap_removeUserOf_removeEvents (l : List String) (g : String → Bool) :
    (l.map (fun u => MutEvent.remove u (g u))).filterMap removeUserOf = l := by
  induction l with
  | nil => rfl
  | cons a t ih => simp [removeUserOf, ih]

lemma filterMap_removeUserOf_addEvents (l : List String) (g : String → Bool) :
    (l.map (fun u => MutEvent.add u (g u))).filterMap removeUserOf = [] := by
  induction l with
  | nil => rfl
  | cons a t ih => simp [removeUserOf, ih]

lemma filterMap_addUserOf_removeEvents (l : List String) (g : String → Bool) :
    (l.map (fun u => MutEvent.remove u (g u))).filterMap addUserOf = [] := by
  induction l with
  | nil => rfl
  | cons a t ih => simp [addUserOf, ih]

lemma filterMap_addUserOf_addEvents (l : List String) (g : String → Bool) :
    (l.map (fun u => MutEvent.add u (g u))).filterMap addUserOf = l := by
  induction l with
  | nil => rfl
  | cons a t ih => simp [addUserOf, ih]

lemma filter_isRemove_removeEvents (l : List String) (g : String → Bool) :
    (l.map (fun u => MutEvent.remove u (g u))).filter MutEvent.isRemove
      = l.map (fun u => MutEvent.remove u (g u)) := by
  induction l with
  | nil => rfl
  | cons a t ih => simp [MutEvent.isRemove, ih]

lemma filter_isRemove_addEvents (l : List String) (g : String → Bool) :
    (l.map (fun u => MutEvent.add u (g u))).filter MutEvent.isRemove = [] := by
  induction l with
  | nil => rfl
  | cons a t ih => simp [MutEvent.isRemove, ih]

lemma filter_isAdd_removeEvents (l : List String) (g : String → Bool) :
    (l.map (fun u => MutEvent.remove u (g u))).filter MutEvent.isAdd = [] := by
  induction l with
  | nil => rfl
  | cons a t ih => simp [MutEvent.isAdd, ih]

lemma filter_isAdd_addEvents (l : List String) (g : String → Bool) :
    (l.map (fun u => MutEvent.add u (g u))).filter MutEvent.isAdd
      = l.map (fun u => MutEvent.add u (g u)) := by
  induction l with
  | nil => rfl
  | cons a t ih => simp [MutEvent.isAdd, ih]

lemma sync_trace_eq (team cc : Finset String) (rr ar : String → Response) :
    (sync_cost_center_with_team team cc rr ar).trace
      = ((cc \ team).sort (· ≤ ·)).map
          (fun u => MutEvent.remove u (remove_user_from_cost_center (rr u)))
        ++ ((team \ cc).sort (· ≤ ·)).map
          (fun u => MutEvent.add u (add_user_to_cost_center (ar u))) := rfl

lemma sync_trace_removeUsers (team cc : Finset String) (rr ar : String → Response) :
    (sync_cost_center_with_team team cc rr ar).trace.filterMap removeUserOf
      = (cc \ team).sort (· ≤ ·) := by
  rw [sync_trace_eq, List.filterMap_append, filterMap_removeUserOf_removeEvents,
    filterMap_removeUserOf_addEvents, List.append_nil]

lemma sync_trace_addUsers (team cc : Finset String) (rr ar : String → Response) :
    (sync_cost_center_with_team team cc rr ar).trace.filterMap addUserOf
      = (team \ cc).sort (· ≤ ·) := by
  rw [sync_trace_eq, List.filterMap_append, filterMap_addUserOf_removeEvents,
    filterMap_addUserOf_addEvents, List.nil_append]

/-- C1.  The sync plan is computed by the two set differences
`to_remove = cost_center_members − team_members` and
`to_add = team_members − cost_center_members`; consequently `to_add`
is disjoint from the cost-center set, `to_remove` is disjoint from the
team set, and `to_add` is disjoint from `to_remove`; on the spec's
example `team = {a,b,c}`, `cost_center = {b,c,d}` the plan is
`to_add = {a}`, `to_remove = {d}`. -/
theorem sync_plan_is_set_difference (team cc : Finset String) (rr ar : String → Response) :
    (sync_cost_center_with_team team cc rr ar).to_remove = cc \ team
  ∧ (sync_cost_center_with_team team cc rr ar).to_add = team \ cc
  ∧ (sync_cost_center_with_team team cc rr ar).to_add ∩ cc = ∅
  ∧ (sync_cost_center_with_team team cc rr ar).to_remove ∩ team = ∅
  ∧ (sync_cost_center_with_team team cc rr ar).to_add ∩ (sync_cost_center_with_team team cc rr ar).to_remove = ∅
  ∧ (sync_cost_center_with_team {"a", "b", "c"} {"b", "c", "d"} rr ar).to_add = {"a"}
  ∧ (sync_cost_center_with_team {"a", "b", "c"} {"b", "c", "d"} rr ar).to_remove = {"d"} := by
  refine ⟨rfl, rfl, ?_, ?_, ?_,
    (by show ({"a", "b", "c"} : Finset String) \ {"b", "c", "d"} = {"a"}; decide),
    (by show ({"b", "c", "d"} : Finset String) \ {"a", "b", "c"} = {"d"}; decide)⟩
  · ext x
    simp only [sync_cost_center_with_team, Finset.mem_inter, Finset.mem_sdiff,
      Finset.not_mem_empty, iff_false]
    tauto
  · ext x
    simp only [sync_cost_center_with_team, Finset.mem_inter, Finset.mem_sdiff,
      Finset.not_mem_empty, iff_false]
    tauto
  · ext x
    simp only [sync_cost_center_with_team, Finset.mem_inter, Finset.mem_sdiff,
      Finset.not_mem_empty, iff_false]
    tauto

/-- C2.  The mutation trace of a sync run performs the whole removal
phase before the addition phase, each phase visits exactly the sorted
(lexicographic) list of its identifier set, the visited identifiers
are sorted, and the visited identifiers do not depend on the mutation
responses (a failure never prevents later attempts). -/
theorem sync_phase_order_and_isolation (team cc : Finset String)
    (rr ar rr' ar' : String → Response) :
    (sync_cost_center_with_team team cc rr ar).trace.filterMap removeUserOf
      = (cc \ team).sort (· ≤ ·)
  ∧ (sync_cost_center_with_team team cc rr ar).trace.filterMap addUserOf
      = (team \ cc).sort (· ≤ ·)
  ∧ (sync_cost_center_with_team team cc rr ar).trace
      = (sync_cost_center_with_team team cc rr ar).trace.filter MutEvent.isRemove
        ++ (sync_cost_center_with_team team cc rr ar).trace.filter MutEvent.isAdd
  ∧ List.Sorted (· ≤ ·) ((sync_cost_center_with_team team cc rr ar).trace.filterMap removeUserOf)
  ∧ List.Sorted (· ≤ ·) ((sync_cost_center_with_team team cc rr ar).trace.filterMap addUserOf)
  ∧ (sync_cost_center_with_team team cc rr' ar').trace.filterMap removeUserOf
      = (sync_cost_center_with_team team cc rr ar).trace.filterMap removeUserOf
  ∧ (sync_cost_center_with_team team cc rr' ar').trace.filterMap addUserOf
      = (sync_cost_center_with_team team cc rr ar).trace.filterMap addUserOf := by
  refine ⟨sync_trace_removeUsers team cc rr ar, sync_trace_addUsers team cc rr ar, ?_, ?_, ?_, ?_, ?_⟩
  · rw [sync_trace_eq, List.filter_append, List.filter_append,
      filter_isRemove_removeEvents, filter_isRemove_addEvents,
      filter_isAdd_removeEvents, filter_isAdd_addEvents,
      List.append_nil, List.nil_append]
  · rw [sync_trace_removeUsers]
    exact Finset.sort_sorted _ _
  · rw [sync_trace_addUsers]
    exact Finset.sort_sorted _ _
  · rw [sync_trace_removeUsers, sync_trace_removeUsers]
  · rw [sync_trace_addUsers, sync_trace_addUsers]

/-- C5.  Idempotence: if the cost-center set fetched on the second run
equals the team set (no external change after a successful first run),
the second run computes empty differences and performs no mutation. -/
theorem sync_idempotent (team cc : Finset String) (rr ar : String → Response)
    (h : cc = team) :
    (sync_cost_center_with_team team cc rr ar).to_remove = ∅
  ∧ (sync_cost_center_with_team team cc rr ar).to_add = ∅
  ∧ (sync_cost_center_with_team team cc rr ar).trace = []
  ∧ (sync_cost_center_with_team team cc rr ar).removed_count = 0
  ∧ (sync_cost_center_with_team team cc rr ar).added_count = 0 := by
  subst h
  refine ⟨Finset.sdiff_self cc, Finset.sdiff_self cc, ?_, ?_, ?_⟩ <;>
    simp [sync_cost_center_with_team, Finset.sdiff_self, Finset.sort_empty]

/-- Witness for C5 at a concrete instance: team and cost center both
`{"alice"}`. -/
theorem sync_idempotent_witness :
    (sync_cost_center_with_team {"alice"} {"alice"}
        (fun _ => ⟨200, none, none⟩) (fun _ => ⟨200, none, none⟩)).to_remove = ∅
  ∧ (sync_cost_center_with_team {"alice"} {"alice"}
        (fun _ => ⟨200, none, none⟩) (fun _ => ⟨200, none, none⟩)).to_add = ∅
  ∧ (sync_cost_center_with_team {"alice"} {"alice"}
        (fun _ => ⟨200, none, none⟩) (fun _ => ⟨200, none, none⟩)).trace = []
  ∧ (sync_cost_center_with_team {"alice"} {"alice"}
        (fun _ => ⟨200, none, none⟩) (fun _ => ⟨200, none, none⟩)).removed_count = 0
  ∧ (sync_cost_center_with_team {"alice"} {"alice"}
        (fun _ => ⟨200, none, none⟩) (fun _ => ⟨200, none, none⟩)).added_count = 0 :=
  sync_idempotent {"alice"} {"alice"} (fun _ => ⟨200, none, none⟩) (fun _ => ⟨200, none, none⟩) rfl

lemma countP_removeEvents (l : List String) (g : String → Bool) :
    (l.map (fun u => MutEvent.remove u (g u))).countP
      (fun e => match e with | .remove _ ok => ok | _ => false) = l.countP g := by
  induction l with
  | nil => rfl
  | cons a t ih => simp [List.countP_cons, ih]

lemma countP_addEvents (l : List String) (g : String → Bool) :
    (l.map (fun u => MutEvent.add u (g u))).countP
      (fun e => match e with | .add _ ok => ok | _ => false) = l.countP g := by
  induction l with
  | nil => rfl
  | cons a t ih => simp [List.countP_cons, ih]

lemma sync_removed_count_eq (team cc : Finset String) (rr ar : String → Response) :
    (sync_cost_center_with_team team cc rr ar).removed_count
      = ((cc \ team).sort (· ≤ ·)).countP (fun u => remove_user_from_cost_center (rr u)) := by
  show (((cc \ team).sort (· ≤ ·)).map
      (fun u => MutEvent.remove u (remove_user_from_cost_center (rr u)))).countP _ = _
  rw [countP_removeEvents]

lemma sync_added_count_eq (team cc : Finset String) (rr ar : String → Response) :
    (sync_cost_center_with_team team cc rr ar).added_count
      = ((team \ cc).sort (· ≤ ·)).countP (fun u => add_user_to_cost_center (ar u)) := by
  show (((team \ cc).sort (· ≤ ·)).map
      (fun u => MutEvent.add u (add_user_to_cost_center (ar u)))).countP _ = _
  rw [countP_addEvents]

lemma sort_pair_xy : ({"x", "y"} : Finset String).sort (· ≤ ·) = ["x", "y"] := by
  rw [show ({"x", "y"} : Finset String) = insert "x" {"y"} from rfl, Finset.sort_insert]
  · rw [Finset.sort_singleton]
  · intro b hb
    rw [Finset.mem_singleton] at hb
    subst hb
    exact String.le_iff_toList_le.mpr (by decide)
  · decide

/-- Mutation oracle of the spec's failure-isolation scenario: the POST
for `"x"` comes back `500`, any other user's comes back `201`. -/
def failOnX : String → Response :=
  fun u => if u = "x" then ⟨500, none, none⟩ else ⟨201, none, none⟩

/-- Counterexample to C3 as stated.  The claim makes the conventional
created/accepted/no-content codes of the verb the success set, but the
code tests membership in the literal tuples `(200, 201, 204)` (POST)
and `(200, 204)` (DELETE): status `202` ("Accepted") is reported as a
failure by both operations, while `200` ("OK"), which is none of
created/accepted/no-content, is reported as a success. -/
theorem mutation_status_codes_counterexample :
    add_user_to_cost_center ⟨202, none, none⟩ = false
  ∧ remove_user_from_cost_center ⟨202, none, none⟩ = false
  ∧ add_user_to_cost_center ⟨200, none, none⟩ = true := by
  decide

/-- C3 amended.  A single-user add succeeds exactly for status codes
200, 201, 204 and a single-user remove exactly for 200, 204; any other
status is a non-fatal per-item failure: each phase's success counter
counts exactly the successful responses over all attempted
identifiers, and in the spec's scenario (adding `"x"` fails with a
simulated 500, `"y"` succeeds) both users are attempted and the final
count is one success of two attempts. -/
theorem mutation_status_codes_amended (resp : Response) (team cc : Finset String)
    (rr ar : String → Response) :
    (add_user_to_cost_center resp = true
      ↔ resp.status_code = 200 ∨ resp.status_code = 201 ∨ resp.status_code = 204)
  ∧ (remove_user_from_cost_center resp = true
      ↔ resp.status_code = 200 ∨ resp.status_code = 204)
  ∧ (sync_cost_center_with_team team cc rr ar).added_count
      = ((team \ cc).sort (· ≤ ·)).countP (fun u => add_user_to_cost_center (ar u))
  ∧ (sync_cost_center_with_team team cc rr ar).removed_count
      = ((cc \ team).sort (· ≤ ·)).countP (fun u => remove_user_from_cost_center (rr u))
  ∧ (sync_cost_center_with_team {"x", "y"} ∅ rr failOnX).trace
      = [MutEvent.add "x" false, MutEvent.add "y" true]
  ∧ (sync_cost_center_with_team {"x", "y"} ∅ rr failOnX).added_count = 1
  ∧ (sync_cost_center_with_team {"x", "y"} ∅ rr failOnX).trace.length = 2 := by
  have htrace : (sync_cost_center_with_team {"x", "y"} ∅ rr failOnX).trace
      = [MutEvent.add "x" false, MutEvent.add "y" true] := by
    rw [sync_trace_eq, Finset.empty_sdiff, Finset.sort_empty, Finset.sdiff_empty, sort_pair_xy,
      List.map_nil, List.nil_append]
    decide
  refine ⟨?_, ?_, sync_added_count_eq team cc rr ar, sync_removed_count_eq team cc rr ar,
    htrace, ?_, ?_⟩
  · simp [add_user_to_cost_center, or_assoc]
  · simp [remove_user_from_cost_center]
  · rw [sync_added_count_eq, Finset.sdiff_empty, sort_pair_xy]
    decide
  · rw [htrace]
    rfl

/-! ## C4 — fatal fetch errors abort before any mutation -/

lemma teamPageStep_bad (r : Response) (h : r.status_code ≠ 200 ∨ r.body = none) :
    isFatal (teamPageStep r) = true := by
  rcases h with h | h
  · simp only [teamPageStep, if_pos h]
    rfl
  · by_cases h2 : r.status_code ≠ 200
    · simp only [teamPageStep, if_pos h2]
      rfl
    · simp only [teamPageStep, if_neg h2, h]
      rfl

lemma fetchTeamLoop_bad (http : String → Response) (fuel : Nat) (url : String)
    (acc : Finset String) (h : isFatal (teamPageStep (http url)) = true) :
    isFatal (fetchTeamLoop http fuel url acc) = true := by
  cases heq : teamPageStep (http url) with
  | error e => cases fuel <;> simp [fetchTeamLoop, heq, isFatal]
  | ok v => rw [heq] at h; simp [isFatal] at h

lemma fetch_cost_center_members_bad (http : String → Response)
    (base enterprise cost_center_id : String)
    (h : (http (costCenterUrl base enterprise cost_center_id)).status_code ≠ 200
       ∨ (http (costCenterUrl base enterprise cost_center_id)).body = none) :
    isFatal (fetch_cost_center_members http base enterprise cost_center_id) = true := by
  rcases h with h | h
  · simp only [fetch_cost_center_members, if_pos h]
    rfl
  · by_cases h2 : (http (costCenterUrl base enterprise cost_center_id)).status_code ≠ 200
    · simp only [fetch_cost_center_members, if_pos h2]
      rfl
    · simp only [fetch_cost_center_members, if_neg h2, h]
      rfl

/-- A read response that is fatal for the fetchers: non-200 status or
a body that JSON decoding fails on. -/
def badResponse (r : Response) : Prop :=
  r.status_code ≠ 200 ∨ r.body = none

/-- C4.  If the team-membership request receives a non-200 status or a
non-JSON body (first page directly; any later page via the fetch
aborting), or the cost-center request does, the whole run aborts with
a fatal error and the mutation trace is empty: no add or remove
request is issued, so no partial state is acted upon. -/
theorem fatal_fetch_aborts_before_mutations (http removeResp addResp : String → Response)
    (base enterprise team_slug cost_center_id : String)
    (h : badResponse (http (teamMembershipsUrl base enterprise team_slug))
       ∨ badResponse (http (costCenterUrl base enterprise cost_center_id))
       ∨ isFatal (fetch_enterprise_team_members http base enterprise team_slug) = true) :
    (run_sync http removeResp addResp base enterprise team_slug cost_center_id).1 = []
  ∧ isFatal (run_sync http removeResp addResp base enterprise team_slug cost_center_id).2 = true := by
  have hmain : isFatal (fetch_enterprise_team_members http base enterprise team_slug) = true
      ∨ isFatal (fetch_cost_center_members http base enterprise cost_center_id) = true := by
    rcases h with h | h | h
    · exact Or.inl (fetchTeamLoop_bad http 199 _ ∅ (teamPageStep_bad _ h))
    · exact Or.inr (fetch_cost_center_members_bad http base enterprise cost_center_id h)
    · exact Or.inl h
  constructor <;>
  · cases heqt : fetch_enterprise_team_members http base enterprise team_slug with
    | error e => simp [run_sync, heqt, isFatal]
    | ok v =>
      rw [heqt] at hmain
      cases heqc : fetch_cost_center_members http base enterprise cost_center_id with
      | error e => simp [run_sync, heqt, heqc, isFatal]
      | ok w =>
        rw [heqc] at hmain
        simp [isFatal] at hmain

/-- Witness for C4: every GET returns a 500, so the team fetch aborts
and the run performs no mutation. -/
theorem fatal_fetch_aborts_before_mutations_witness :
    (run_sync (fun _ => ⟨500, none, none⟩) (fun _ => ⟨200, none, none⟩)
        (fun _ => ⟨200, none, none⟩) "b" "e" "t" "c").1 = []
  ∧ isFatal (run_sync (fun _ => ⟨500, none, none⟩) (fun _ => ⟨200, none, none⟩)
        (fun _ => ⟨200, none, none⟩) "b" "e" "t" "c").2 = true :=
  fatal_fetch_aborts_before_mutations (fun _ => ⟨500, none, none⟩) (fun _ => ⟨200, none, none⟩)
    (fun _ => ⟨200, none, none⟩) "b" "e" "t" "c" (Or.inl (Or.inl (by decide)))

/-! ## C7 — the 200-page pagination safety cap -/

/-- The URL the next page is fetched from (defined whenever the page's
link header parses to a next cursor). -/
def nextOf (http : String → Response) (u : String) : String :=
  (parse_next_link (http u).link).getD ""

/-- Folding one page's payload into the login set. -/
def pageAdd (http : String → Response) (u : String) (acc : Finset String) : Finset String :=
  addTeamLogins acc (extract_memberships ((http u).body.getD .null))

/-- The logins accumulated over the first `n` pages of the cursor
chain starting at `u`. -/
def chainAcc (http : String → Response) : Nat → String → Finset String → Finset String
  | 0, _, acc => acc
  | n + 1, u, acc => chainAcc http n (nextOf http u) (pageAdd http u acc)

lemma fetchTeamLoop_never_ending (http : String → Response)
    (h : ∀ u, (http u).status_code = 200 ∧ (http u).body.isSome = true
            ∧ (parse_next_link (http u).link).isSome = true) :
    ∀ fuel url acc, fetchTeamLoop http fuel url acc
      = .ok (chainAcc http (fuel + 1) url acc, fuel + 1) := by
  intro fuel
  induction fuel with
  | zero =>
    intro url acc
    obtain ⟨h1, h2, h3⟩ := h url
    obtain ⟨p, hp⟩ := Option.isSome_iff_exists.mp h2
    obtain ⟨nx, hnx⟩ := Option.isSome_iff_exists.mp h3
    have hstep : teamPageStep (http url) = .ok (extract_memberships p, some nx) := by
      simp [teamPageStep, h1, hp, hnx]
    simp [fetchTeamLoop, hstep, chainAcc, pageAdd, hp]
  | succ n ih =>
    intro url acc
    obtain ⟨h1, h2, h3⟩ := h url
    obtain ⟨p, hp⟩ := Option.isSome_iff_exists.mp h2
    obtain ⟨nx, hnx⟩ := Option.isSome_iff_exists.mp h3
    have hstep : teamPageStep (http url) = .ok (extract_memberships p, some nx) := by
      simp [teamPageStep, h1, hp, hnx]
    have hchain : chainAcc http (n + 1 + 1) url acc
        = chainAcc http (n + 1) (nextOf http url) (pageAdd http url acc) := rfl
    rw [hchain]
    have hnext : nextOf http url = nx := by simp [nextOf, hnx]
    have hacc : pageAdd http url acc = addTeamLogins acc (extract_memberships p) := by
      simp [pageAdd, hp]
    simp [fetchTeamLoop, hstep, ih, hnext, hacc]

/-- C7.  If every page's response is a 200 JSON page that yields a next
cursor (pagination never terminates on its own), the team-member fetch
does not fail, performs exactly 200 page fetches, and returns the
logins accumulated over those 200 pages of the cursor chain. -/
theorem pagination_cap (http : String → Response) (base enterprise team_slug : String)
    (h : ∀ u, (http u).status_code = 200 ∧ (http u).body.isSome = true
            ∧ (parse_next_link (http u).link).isSome = true) :
    fetch_enterprise_team_members http base enterprise team_slug
      = .ok (chainAcc http 200 (teamMembershipsUrl base enterprise team_slug) ∅, 200) :=
  fetchTeamLoop_never_ending http h 199 (teamMembershipsUrl base enterprise team_slug) ∅

/-- A transport whose every response advertises a next page. -/
def httpLoop : String → Response :=
  fun _ => ⟨200, some (.arr []), some "<u>; rel=\"next\""⟩

/-- Witness for C7: with `httpLoop`, the fetch stops after exactly 200
page fetches with the accumulated (here: empty) login set. -/
theorem pagination_cap_witness :
    fetch_enterprise_team_members httpLoop "b" "e" "t"
      = .ok (chainAcc httpLoop 200 (teamMembershipsUrl "b" "e" "t") ∅, 200) :=
  pagination_cap httpLoop "b" "e" "t"
    (fun _ => ⟨rfl, rfl,
      by show (parse_next_link (some "<u>; rel=\"next\"")).isSome = true; decide⟩)

/-! ## C8 — extractor shape tolerance and record-login derivation -/

/-- "A sequence which is empty or whose first element is a mapping"
(the spec's heuristic for a list of records). -/
def recordList : Json → Option (List Json)
  | .arr [] => some []
  | .arr (Json.obj f :: xs) => some (Json.obj f :: xs)
  | _ => none

/-- `extract_memberships` as the spec describes it, written with
search combinators: the payload itself if a sequence; else the first
of the four well-known fields present with a sequence value; else the
first mapping value that looks like a list of records; else empty. -/
def extract_memberships_spec (payload : Json) : List Json :=
  match payload with
  | .arr xs => xs
  | .obj fields =>
    match (["memberships", "items", "value", "data"].findSome?
        (fun k => match pyLookup fields k with | some (.arr xs) => some xs | _ => none)) with
    | some xs => xs
    | none => (fields.findSome? (fun kv => recordList kv.2)).getD []
  | _ => []

/-- The record-login derivation exactly as the claim states it: the
`login` field of a nested `user` mapping, else the record's top-level
`login` field, else skip. -/
def extractLogin_spec (m : Json) : Option Json :=
  match m with
  | .obj fields =>
    match pyLookup fields "user" with
    | some (.obj ufields) =>
      match pyLookup ufields "login" with
      | some l => some l
      | none => pyLookup fields "login"
    | _ => pyLookup fields "login"
  | _ => none

/-- The record-login derivation as amended: at each step a falsy value
(`None`, `False`, `0`, `""`, empty containers) is treated as absent —
a falsy nested login falls through to the top-level `login` field, and
a record whose resolved login is falsy is skipped. -/
def extractLogin_amended (m : Json) : Option Json :=
  match m with
  | .obj fields =>
    let nested : Option Json :=
      match pyLookup fields "user" with
      | some (.obj ufields) =>
        match pyLookup ufields "login" with
        | some l => if l.truthy then some l else none
        | none => none
      | _ => none
    match nested with
    | some l => some l
    | none =>
      match pyLookup fields "login" with
      | some l => if l.truthy then some l else none
      | none => none
  | _ => none

lemma prioScan_eq_findSome (fields : List (String × Json)) (ks : List String) :
    prioScan fields ks
      = ks.findSome? (fun k => match pyLookup fields k with | some (.arr xs) => some xs | _ => none) := by
  induction ks with
  | nil => rfl
  | cons k ks ih =>
    rw [List.findSome?_cons]
    cases h : pyLookup fields k with
    | none => simpa [prioScan, h] using ih
    | some v => cases v <;> simpa [prioScan, h] using ih

lemma scanValues_eq_findSome (fields : List (String × Json)) :
    scanValues fields = fields.findSome? (fun kv => recordList kv.2) := by
  induction fields with
  | nil => rfl
  | cons kv rest ih =>
    obtain ⟨k, v⟩ := kv
    rw [List.findSome?_cons]
    cases v with
    | arr xs =>
      cases xs with
      | nil => rfl
      | cons x xs => cases x <;> simpa [scanValues, recordList] using ih
    | _ => simpa [scanValues, recordList] using ih

lemma extract_memberships_eq_spec (payload : Json) :
    extract_memberships payload = extract_memberships_spec payload := by
  cases payload with
  | obj fields =>
    simp only [extract_memberships, extract_memberships_spec,
      prioScan_eq_findSome, scanValues_eq_findSome]
    cases ["memberships", "items", "value", "data"].findSome?
        (fun k => match pyLookup fields k with | some (.arr xs) => some xs | _ => none) with
    | some xs => rfl
    | none => cases fields.findSome? (fun kv => recordList kv.2) <;> rfl
  | _ => rfl

lemma pyLookup_nil (k : String) : pyLookup ([] : List (String × Json)) k = none := rfl

lemma truthy_obj_nil : (Json.obj []).truthy = false := rfl

lemma truthy_obj_cons (a : String × Json) (t : List (String × Json)) :
    (Json.obj (a :: t)).truthy = true := rfl

lemma truthy_null : Json.null.truthy = false := rfl

lemma truthy_bool (b : Bool) : (Json.bool b).truthy = b := rfl

lemma extractLogin_eq_amended (m : Json) :
    extractLogin m = extractLogin_amended m := by
  cases m with
  | obj fields =>
    cases hu : pyLookup fields "user" with
    | none => simp [extractLogin, extractLogin_amended, hu, pyLookup_nil]
    | some u =>
      cases u with
      | obj ufields =>
        cases ufields with
        | nil => simp [extractLogin, extractLogin_amended, hu, truthy_obj_nil, pyLookup_nil]
        | cons a t =>
          cases hul : pyLookup (a :: t) "login" with
          | none => simp [extractLogin, extractLogin_amended, hu, hul, truthy_obj_cons]
          | some l =>
            by_cases ht : l.truthy = true <;>
              simp [extractLogin, extractLogin_amended, hu, hul, ht, truthy_obj_cons]
      | null => simp [extractLogin, extractLogin_amended, hu, truthy_null, pyLookup_nil]
      | bool b =>
        cases b <;> simp [extractLogin, extractLogin_amended, hu, truthy_bool, pyLookup_nil]
      | num n =>
        by_cases ht : (Json.num n).truthy = true <;>
          simp [extractLogin, extractLogin_amended, hu, ht, pyLookup_nil]
      | str s =>
        by_cases ht : (Json.str s).truthy = true <;>
          simp [extractLogin, extractLogin_amended, hu, ht, pyLookup_nil]
      | arr xs =>
        by_cases ht : (Json.arr xs).truthy = true <;>
          simp [extractLogin, extractLogin_amended, hu, ht, pyLookup_nil]
  | _ => rfl

/-- Counterexample to C8 as stated.  On the record
`{"user": {"login": ""}, "login": "bob"}` the nested `user` mapping has
a `login` field (the empty string), so the claim derives the
identifier `""`; the code, however, treats the falsy nested login as
absent and falls back to the top-level field, deriving `"bob"`. -/
theorem record_login_counterexample :
    extractLogin (.obj [("user", .obj [("login", .str "")]), ("login", .str "bob")])
      = some (.str "bob")
  ∧ extractLogin_spec (.obj [("user", .obj [("login", .str "")]), ("login", .str "bob")])
      = some (.str "")
  ∧ extractLogin (.obj [("user", .obj [("login", .str "")]), ("login", .str "bob")])
      ≠ extractLogin_spec (.obj [("user", .obj [("login", .str "")]), ("login", .str "bob")]) := by
  refine ⟨rfl, rfl, ?_⟩
  intro h
  have h2 : some (Json.str "bob") = some (Json.str "") := h
  injection h2 with h3
  injection h3 with h4
  exact absurd h4 (by decide)

/-- C8 amended.  `extract_memberships` behaves exactly as the claim
states (payload itself if a sequence; else the first of `memberships`,
`items`, `value`, `data` present with a sequence value; else the first
mapping value that is a sequence which is empty or whose first element
is a mapping; else empty), and the record-login derivation is as the
claim states it with falsy values treated as absent at each step: a
truthy `login` of a nested `user` mapping, else a truthy top-level
`login`, else the record is skipped. -/
theorem extractor_shape_and_login_amended (payload m : Json) :
    extract_memberships payload = extract_memberships_spec payload
  ∧ extractLogin m = extractLogin_amended m :=
  ⟨extract_memberships_eq_spec payload, extractLogin_eq_amended m⟩

/-! ## C9 / C10 — cost-center user extraction -/

/-- `if x:` filtering of an optional lookup result. -/
def truthyFilter (o : Option Json) : Option Json :=
  match o with
  | some l => if l.truthy then some l else none
  | none => none

/-- Per-entry login derivation as the claim words it (with truthiness
made explicit): `login` then `username` from mapping entries, the
value itself from bare entries. -/
def entryLoginSpec (u : Json) : Option Json :=
  match u with
  | .obj fields =>
    match truthyFilter (pyLookup fields "login") with
    | some l => some l
    | none => truthyFilter (pyLookup fields "username")
  | v => if v.truthy then some v else none

lemma userLogin_eq_entrySpec (u : Json) : userLogin u = entryLoginSpec u := by
  cases u with
  | obj fields =>
    cases hl : pyLookup fields "login" with
    | none => simp [userLogin, entryLoginSpec, truthyFilter, hl]
    | some l =>
      by_cases ht : l.truthy = true <;>
        simp [userLogin, entryLoginSpec, truthyFilter, hl, ht]
  | _ => rfl

/-- The container shapes under which the cost-center extraction cannot
raise: the `resources` value, when present, is a mapping, and the
selected `users` value, when present, is a sequence. -/
def wellShapedB (fs : List (String × Json)) : Bool :=
  match pyLookup fs "resources" with
  | some (.obj rf) =>
    match pyLookup rf "users" with
    | some (.arr _) => true
    | none => true
    | some _ => false
  | some _ => false
  | none =>
    match pyLookup fs "users" with
    | some (.arr _) => true
    | none => true
    | some _ => false

/-- The user sequence the claim says is read: the `resources` mapping's
`users` sequence when `resources` is present, else the top-level
`users` sequence, else nothing. -/
def selectedUsersSpec (fs : List (String × Json)) : List Json :=
  match pyLookup fs "resources" with
  | some (.obj rf) =>
    match pyLookup rf "users" with
    | some (.arr xs) => xs
    | _ => []
  | _ =>
    match pyLookup fs "users" with
    | some (.arr xs) => xs
    | _ => []

/-- A transport returning status 200 with the JSON body
`{"resources": null}`. -/
def ccNullResources : String → Response :=
  fun _ => ⟨200, some (.obj [("resources", Json.null)]), none⟩

/-- Counterexample to C9 as stated.  The 200-status JSON payload
`{"resources": null}` does not yield the empty set: `resources` is
present but `None`, so `resources.get("users", [])` raises
`AttributeError` and the fetch aborts with an error. -/
theorem cost_center_shape_counterexample :
    cost_center_logins (.obj [("resources", Json.null)])
      = .error "AttributeError: object has no attribute get"
  ∧ isFatal (fetch_cost_center_members ccNullResources "b" "e" "c") = true :=
  ⟨rfl, rfl⟩

/-- C9 amended.  For every 200-status JSON cost-center payload that is
a mapping in which the `resources` value, when present, is a mapping
and the selected `users` value, when present, is a sequence, the user
extraction returns without error: users are read from the `resources`
mapping's `users` sequence, else from the top-level `users` sequence,
taking a truthy `login` then `username` from mapping entries and the
value itself from truthy bare entries; with the relevant keys missing
the result is the empty set. -/
theorem cost_center_extraction_amended (fs : List (String × Json))
    (h : wellShapedB fs = true) :
    cost_center_logins (.obj fs) = .ok ((selectedUsersSpec fs).filterMap entryLoginSpec) := by
  have hUL : userLogin = entryLoginSpec := funext userLogin_eq_entrySpec
  cases h1 : pyLookup fs "resources" with
  | some r =>
    cases r with
    | obj rf =>
      cases h2 : pyLookup rf "users" with
      | none =>
        simp [cost_center_logins, pyContains, pyGet, pyIterate, selectedUsersSpec, h1, h2]
      | some v =>
        cases v with
        | arr xs =>
          simp [cost_center_logins, pyContains, pyGet, pyIterate, selectedUsersSpec, h1, h2, hUL]
        | _ => simp [wellShapedB, h1, h2] at h
    | _ => simp [wellShapedB, h1] at h
  | none =>
    cases h3 : pyLookup fs "users" with
    | none =>
      simp [cost_center_logins, pyContains, pyGet, pyIterate, selectedUsersSpec, h1, h3]
    | some v =>
      cases v with
      | arr xs =>
        simp [cost_center_logins, pyContains, pyGet, pyIterate, selectedUsersSpec, h1, h3, hUL]
      | _ => simp [wellShapedB, h1, h3] at h

/-- Witness for C9 (amended): a well-shaped payload with one bare user
entry and one mapping entry. -/
theorem cost_center_extraction_amended_witness :
    cost_center_logins
        (.obj [("resources", .obj [("users", .arr [.str "alice", .obj [("login", .str "bob")]])])])
      = .ok ((selectedUsersSpec
          [("resources", .obj [("users", .arr [.str "alice", .obj [("login", .str "bob")]])])]).filterMap
            entryLoginSpec) :=
  cost_center_extraction_amended
    [("resources", .obj [("users", .arr [.str "alice", .obj [("login", .str "bob")]])])] rfl

/-- C10.  Whenever the payload has a `resources` key, the users are
read exclusively from its value: with a `resources` mapping lacking a
`users` entry, a top-level `users` sequence is ignored and the result
is the empty set; more generally the extraction result depends only on
the `resources` value once that key is present. -/
theorem resources_branch_exclusive (fs fs1 fs2 : List (String × Json))
    (rf : List (String × Json)) (users : List Json) (r : Json)
    (h1 : pyLookup fs "resources" = some (.obj rf))
    (h2 : pyLookup rf "users" = none)
    (h3 : pyLookup fs "users" = some (.arr users))
    (h4 : pyLookup fs1 "resources" = some r)
    (h5 : pyLookup fs2 "resources" = some r) :
    cost_center_logins (.obj fs) = .ok []
  ∧ cost_center_logins (.obj fs1) = cost_center_logins (.obj fs2) := by
  constructor
  · simp [cost_center_logins, pyContains, pyGet, pyIterate, h1, h2]
  · simp [cost_center_logins, pyContains, pyGet, h4, h5]

/-- Witness for C10: `{"resources": {}, "users": ["bob"]}` yields the
empty set, and two payloads sharing the same `resources` value yield
the same result. -/
theorem resources_branch_exclusive_witness :
    cost_center_logins (.obj [("resources", .obj []), ("users", .arr [.str "bob"])]) = .ok []
  ∧ cost_center_logins (.obj [("resources", .str "z")])
      = cost_center_logins (.obj [("x", Json.null), ("resources", .str "z")]) :=
  resources_branch_exclusive
    [("resources", .obj []), ("users", .arr [.str "bob"])]
    [("resources", .str "z")] [("x", Json.null), ("resources", .str "z")]
    [] [.str "bob"] (.str "z") rfl rfl rfl rfl rfl

/-! ## C6 — link-header parsing, in general

A well-formed link header is a comma-separated list of descriptors
`<url>; rel="value"`.  `goodTok` captures the characters a URL or a
relation value may not contain for the header to be well-formed at
all (the separator and the four delimiter characters, plus
whitespace); `mkPart`/`mkHeader` build the header. -/

/-- A URL or relation token: free of the structural characters of the
header format. -/
def goodTok (l : List Char) : Prop :=
  ∀ c ∈ l, c ≠ ',' ∧ c ≠ '<' ∧ c ≠ '>' ∧ c ≠ '"' ∧ isSpc c = false

instance goodTok_decidable (l : List Char) : Decidable (goodTok l) := by
  unfold goodTok
  infer_instance

/-- One link descriptor `<url>; rel="value"`. -/
def mkPart (url rel : List Char) : List Char :=
  ['<'] ++ url ++ ['>', ';', ' ', 'r', 'e', 'l', '=', '"'] ++ rel ++ ['"']

/-- A link header: descriptors joined by `", "`. -/
def mkHeader : List (List Char × List Char) → List Char
  | [] => []
  | [d] => mkPart d.1 d.2
  | d :: rest => mkPart d.1 d.2 ++ ',' :: ' ' :: mkHeader rest

lemma take_len_append (l₁ l₂ : List Char) : (l₁ ++ l₂).take l₁.length = l₁ := by
  induction l₁ with
  | nil => rfl
  | cons a t ih => simp [List.take, ih]

lemma takeWhile_append_stop (p : Char → Bool) :
    ∀ (xs : List Char) (y : Char) (ys : List Char), (∀ x ∈ xs, p x = true) → p y = false →
      List.takeWhile p (xs ++ y :: ys) = xs := by
  intro xs
  induction xs with
  | nil =>
    intro y ys _ hy
    simp [List.takeWhile_cons, hy]
  | cons a t ih =>
    intro y ys hall hy
    have ha : p a = true := hall a (by simp)
    simp only [List.cons_append, List.takeWhile_cons, ha, if_true]
    rw [ih y ys (fun x hx => hall x (by simp [hx])) hy]

lemma pySplitAux_no_sep (l : List Char) : ∀ acc, ',' ∉ l →
    pySplitAux ',' l acc = [acc.reverse ++ l] := by
  induction l with
  | nil => intro acc _; simp [pySplitAux]
  | cons c cs ih =>
    intro acc h
    have hc : ¬c = ',' := fun he => h (he ▸ List.mem_cons_self c cs)
    have hcs : ',' ∉ cs := fun hm => h (List.mem_cons_of_mem c hm)
    simp [pySplitAux, hc, ih (c :: acc) hcs]

lemma pySplitAux_sep (l : List Char) : ∀ (acc rest : List Char), ',' ∉ l →
    pySplitAux ',' (l ++ ',' :: rest) acc
      = (acc.reverse ++ l) :: pySplitAux ',' rest [] := by
  induction l with
  | nil => intro acc rest _; simp [pySplitAux]
  | cons c cs ih =>
    intro acc rest h
    have hc : ¬c = ',' := fun he => h (he ▸ List.mem_cons_self c cs)
    have hcs : ',' ∉ cs := fun hm => h (List.mem_cons_of_mem c hm)
    simp [pySplitAux, hc, ih (c :: acc) rest hcs]

lemma not_mem_append_of (c : Char) {l₁ l₂ : List Char} (h₁ : c ∉ l₁) (h₂ : c ∉ l₂) :
    c ∉ l₁ ++ l₂ := by
  simp only [List.mem_append]
  tauto

lemma mkPart_no_comma (u r : List Char) (hu : goodTok u) (hr : goodTok r) :
    ',' ∉ mkPart u r := by
  have hu' : ',' ∉ u := fun h => (hu ',' h).1 rfl
  have hr' : ',' ∉ r := fun h => (hr ',' h).1 rfl
  exact not_mem_append_of ','
    (not_mem_append_of ','
      (not_mem_append_of ',' (not_mem_append_of ',' (by decide) hu') (by decide)) hr')
    (by decide)

lemma splitAux_mkHeader : ∀ (ds : List (List Char × List Char)) (d : List Char × List Char)
    (acc : List Char), (∀ e ∈ d :: ds, goodTok e.1 ∧ goodTok e.2) →
    pySplitAux ',' (mkHeader (d :: ds)) acc
      = (acc.reverse ++ mkPart d.1 d.2) :: ds.map (fun e => ' ' :: mkPart e.1 e.2) := by
  intro ds
  induction ds with
  | nil =>
    intro d acc h
    obtain ⟨h1, h2⟩ := h d (by simp)
    show pySplitAux ',' (mkPart d.1 d.2) acc = _
    simp [pySplitAux_no_sep _ acc (mkPart_no_comma d.1 d.2 h1 h2)]
  | cons e rest ih =>
    intro d acc h
    obtain ⟨h1, h2⟩ := h d (by simp)
    show pySplitAux ',' (mkPart d.1 d.2 ++ ',' :: ' ' :: mkHeader (e :: rest)) acc = _
    rw [pySplitAux_sep _ acc _ (mkPart_no_comma d.1 d.2 h1 h2)]
    have hstep : pySplitAux ',' (' ' :: mkHeader (e :: rest)) []
        = pySplitAux ',' (mkHeader (e :: rest)) [' '] := by
      simp [pySplitAux]
    rw [hstep, ih e [' '] (fun x hx => h x (List.mem_cons_of_mem d hx))]
    rfl

lemma dropWhile_mkPart (u r : List Char) :
    List.dropWhile isSpc (mkPart u r) = mkPart u r := by
  have h : mkPart u r
      = '<' :: (u ++ ['>', ';', ' ', 'r', 'e', 'l', '=', '"'] ++ r ++ ['"']) := by
    simp [mkPart]
  rw [h, List.dropWhile_cons, if_neg (by decide)]

lemma dropWhile_mkPart_rev (u r : List Char) :
    List.dropWhile isSpc (mkPart u r).reverse = (mkPart u r).reverse := by
  have h : (mkPart u r).reverse
      = '"' :: (['<'] ++ u ++ ['>', ';', ' ', 'r', 'e', 'l', '=', '"'] ++ r).reverse := by
    show ((['<'] ++ u ++ ['>', ';', ' ', 'r', 'e', 'l', '=', '"'] ++ r) ++ ['"']).reverse = _
    rw [List.reverse_append]
    rfl
  rw [h, List.dropWhile_cons, if_neg (by decide)]

lemma strip_mkPart (u r : List Char) : pyStrip (mkPart u r) = mkPart u r := by
  unfold pyStrip
  rw [dropWhile_mkPart, dropWhile_mkPart_rev, List.reverse_reverse]

lemma strip_space_mkPart (u r : List Char) : pyStrip (' ' :: mkPart u r) = mkPart u r := by
  unfold pyStrip
  have h : List.dropWhile isSpc (' ' :: mkPart u r) = List.dropWhile isSpc (mkPart u r) := by
    rw [List.dropWhile_cons, if_pos (by decide)]
  rw [h, dropWhile_mkPart, dropWhile_mkPart_rev, List.reverse_reverse]

lemma pyFindAux_append (c : Char) (l₂ : List Char) :
    ∀ (l₁ : List Char) (i : Nat), (∀ x ∈ l₁, x ≠ c) →
      pyFindAux c (l₁ ++ c :: l₂) i = some (i + l₁.length) := by
  intro l₁
  induction l₁ with
  | nil => intro i _; simp [pyFindAux]
  | cons a t ih =>
    intro i h
    have ha : ¬a = c := h a (by simp)
    rw [List.cons_append]
    show (if a = c then some i else pyFindAux c (t ++ c :: l₂) (i + 1)) = _
    rw [if_neg ha, ih (i + 1) (fun x hx => h x (by simp [hx]))]
    simp only [List.length_cons, Option.some.injEq]
    omega

lemma pyFind_mkPart_langle (u r : List Char) : pyFind '<' (mkPart u r) = 0 := by
  have h : mkPart u r
      = '<' :: (u ++ ['>', ';', ' ', 'r', 'e', 'l', '=', '"'] ++ r ++ ['"']) := by
    simp [mkPart]
  rw [h]
  simp [pyFind, pyFindAux]

lemma pyFind_mkPart_rangle (u r : List Char) (hu : goodTok u) :
    pyFind '>' (mkPart u r) = (u.length : Int) + 1 := by
  have h : mkPart u r
      = ('<' :: u) ++ '>' :: (';' :: ' ' :: 'r' :: 'e' :: 'l' :: '=' :: '"' :: (r ++ ['"'])) := by
    simp [mkPart]
  have hfree : ∀ x ∈ '<' :: u, x ≠ '>' := by
    intro x hx
    rcases List.mem_cons.mp hx with hx | hx
    · subst hx; decide
    · exact (hu x hx).2.2.1
  rw [h]
  unfold pyFind
  rw [pyFindAux_append '>' _ ('<' :: u) 0 hfree]
  show ((0 + ('<' :: u).length : Nat) : Int) = (u.length : Int) + 1
  simp only [List.length_cons]
  omega

lemma hasLead_iff : ∀ (n h : List Char), hasLead n h = true ↔ ∃ t, h = n ++ t := by
  intro n
  induction n with
  | nil =>
    intro h
    simp only [hasLead, List.nil_append]
    exact ⟨fun _ => ⟨h, rfl⟩, fun _ => trivial⟩
  | cons a as ih =>
    intro h
    cases h with
    | nil =>
      simp only [hasLead]
      constructor
      · intro hfalse; exact absurd hfalse (by decide)
      · rintro ⟨t, ht⟩; exact absurd ht (by simp)
    | cons b bs =>
      simp only [hasLead, Bool.and_eq_true, beq_iff_eq]
      constructor
      · rintro ⟨hab, hl⟩
        subst hab
        obtain ⟨t, ht⟩ := (ih bs).mp hl
        exact ⟨t, by rw [List.cons_append, ht]⟩
      · rintro ⟨t, ht⟩
        rw [List.cons_append] at ht
        injection ht with h1 h2
        exact ⟨h1.symm, (ih bs).mpr ⟨t, h2⟩⟩

lemma hasSub_iff (n : List Char) : ∀ (h : List Char),
    hasSub n h = true ↔ ∃ s t, h = s ++ n ++ t := by
  intro h
  induction h with
  | nil =>
    simp only [hasSub, List.isEmpty_iff]
    constructor
    · intro hn; exact ⟨[], [], by simp [hn]⟩
    · rintro ⟨s, t, ht⟩
      have := List.append_eq_nil.mp ht.symm
      exact (List.append_eq_nil.mp this.1).2
  | cons c cs ih =>
    simp only [hasSub, Bool.or_eq_true]
    constructor
    · rintro (hl | hs)
      · obtain ⟨t, ht⟩ := (hasLead_iff n (c :: cs)).mp hl
        exact ⟨[], t, by simp [ht]⟩
      · obtain ⟨s, t, ht⟩ := ih.mp hs
        exact ⟨c :: s, t, by simp [ht]⟩
    · rintro ⟨s, t, ht⟩
      cases s with
      | nil =>
        left
        exact (hasLead_iff n (c :: cs)).mpr ⟨t, by simpa using ht⟩
      | cons a as =>
        right
        rw [List.cons_append, List.cons_append] at ht
        injection ht with h1 h2
        exact ih.mpr ⟨as, t, h2⟩

/-- The part of a token list after its last `"` (used to read the
relation value off a descriptor). -/
def afterLastQuote (l : List Char) : List Char :=
  (l.reverse.takeWhile (fun c => !(c == '"'))).reverse

lemma afterLastQuote_append (X Y : List Char) (hY : '"' ∉ Y) :
    afterLastQuote (X ++ '"' :: Y) = Y := by
  unfold afterLastQuote
  rw [List.reverse_append, List.reverse_cons, List.append_assoc, List.singleton_append,
    takeWhile_append_stop _ Y.reverse '"' X.reverse
      (fun x hx => by
        have : x ∈ Y := List.mem_reverse.mp hx
        simp only [Bool.not_eq_true', beq_eq_false_iff_ne, ne_eq]
        exact fun he => hY (he ▸ this))
      (by decide),
    List.reverse_reverse]

lemma count_quote_mkPart (u r : List Char) (hu : goodTok u) (hr : goodTok r) :
    (mkPart u r).count '"' = 2 := by
  have hu0 : u.count '"' = 0 := List.count_eq_zero.mpr (fun h => (hu '"' h).2.2.2.1 rfl)
  have hr0 : r.count '"' = 0 := List.count_eq_zero.mpr (fun h => (hr '"' h).2.2.2.1 rfl)
  show ((((['<'] ++ u) ++ ['>', ';', ' ', 'r', 'e', 'l', '=', '"']) ++ r) ++ ['"']).count '"' = 2
  rw [List.count_append, List.count_append, List.count_append, List.count_append, hu0, hr0]
  decide

/-- The heart of C6: a well-formed descriptor contains the literal
`rel="next"` exactly when its relation value is `next`. -/
lemma hasSub_mkPart_iff (u r : List Char) (hu : goodTok u) (hr : goodTok r) :
    hasSub relNextChars (mkPart u r) = true ↔ r = ['n', 'e', 'x', 't'] := by
  constructor
  · intro h
    obtain ⟨s, t, heq⟩ := (hasSub_iff relNextChars (mkPart u r)).mp h
    have hcnt : (s ++ relNextChars ++ t).count '"' = 2 := heq ▸ count_quote_mkPart u r hu hr
    rw [List.count_append, List.count_append] at hcnt
    have hrel2 : relNextChars.count '"' = 2 := by decide
    rw [hrel2] at hcnt
    have hs0 : '"' ∉ s := List.count_eq_zero.mp (by omega)
    have ht0 : '"' ∉ t := List.count_eq_zero.mp (by omega)
    have htnil : t = [] := by
      by_contra hne
      obtain ⟨t', a, hta⟩ := (List.eq_nil_or_concat t).resolve_left hne
      rw [List.concat_eq_append] at hta
      have hlast1 : (mkPart u r).getLast? = some '"' := by
        show ((((['<'] ++ u) ++ ['>', ';', ' ', 'r', 'e', 'l', '=', '"']) ++ r) ++ ['"']).getLast?
          = some '"'
        exact List.getLast?_concat _
      have hlast2 : (mkPart u r).getLast? = some a := by
        rw [heq, hta, ← List.append_assoc]
        exact List.getLast?_concat _
      have ha : a = '"' := by
        rw [hlast1] at hlast2
        exact (Option.some.injEq _ _ ▸ hlast2).symm
      exact ht0 (hta ▸ List.mem_append_right t' (ha ▸ List.mem_singleton.mpr rfl))
    rw [htnil, List.append_nil] at heq
    have hP : (((['<'] ++ u) ++ ['>', ';', ' ', 'r', 'e', 'l', '=', '"']) ++ r) ++ ['"']
        = (s ++ ['r', 'e', 'l', '=', '"', 'n', 'e', 'x', 't']) ++ ['"'] := by
      have h1 : mkPart u r
          = (((['<'] ++ u) ++ ['>', ';', ' ', 'r', 'e', 'l', '=', '"']) ++ r) ++ ['"'] := rfl
      have h2 : s ++ relNextChars
          = (s ++ ['r', 'e', 'l', '=', '"', 'n', 'e', 'x', 't']) ++ ['"'] := by
        simp [relNextChars]
      rw [← h1, ← h2, heq]
    have hPeq := (List.append_inj' hP rfl).1
    have hform1 : ((['<'] ++ u) ++ ['>', ';', ' ', 'r', 'e', 'l', '=', '"']) ++ r
        = ((['<'] ++ u) ++ ['>', ';', ' ', 'r', 'e', 'l', '=']) ++ '"' :: r := by
      simp
    have hform2 : s ++ ['r', 'e', 'l', '=', '"', 'n', 'e', 'x', 't']
        = (s ++ ['r', 'e', 'l', '=']) ++ '"' :: ['n', 'e', 'x', 't'] := by
      simp
    have hr' : '"' ∉ r := fun hm => (hr '"' hm).2.2.2.1 rfl
    have := afterLastQuote_append ((['<'] ++ u) ++ ['>', ';', ' ', 'r', 'e', 'l', '=']) r hr'
    rw [← hform1, hPeq, hform2,
      afterLastQuote_append (s ++ ['r', 'e', 'l', '=']) ['n', 'e', 'x', 't'] (by decide)] at this
    exact this.symm
  · intro hr4
    subst hr4
    refine (hasSub_iff relNextChars (mkPart u ['n', 'e', 'x', 't'])).mpr
      ⟨['<'] ++ u ++ ['>', ';', ' '], [], ?_⟩
    show mkPart u ['n', 'e', 'x', 't']
      = ((['<'] ++ u ++ ['>', ';', ' ']) ++ relNextChars) ++ []
    simp [mkPart, relNextChars]

lemma pySlice_mkPart (u r : List Char) :
    pySlice (mkPart u r) 1 ((u.length : Int) + 1) = u := by
  unfold pySlice
  have h1 : mkPart u r
      = '<' :: (u ++ (['>', ';', ' ', 'r', 'e', 'l', '=', '"'] ++ r ++ ['"'])) := by
    simp [mkPart]
  have h2 : ((u.length : Int) + 1).toNat - (1 : Int).toNat = u.length := by omega
  rw [h1, h2]
  show (u ++ (['>', ';', ' ', 'r', 'e', 'l', '=', '"'] ++ r ++ ['"'])).take u.length = u
  exact take_len_append u _

lemma scanParts_mkParts : ∀ (ds : List (List Char × List Char)),
    (∀ d ∈ ds, goodTok d.1 ∧ goodTok d.2 ∧ d.1 ≠ []) →
    scanParts (ds.map (fun d => mkPart d.1 d.2))
      = (ds.find? (fun d => d.2 == ['n', 'e', 'x', 't'])).map (fun d => d.1) := by
  intro ds
  induction ds with
  | nil => intro _; rfl
  | cons d rest ih =>
    intro h
    obtain ⟨hu, hr, hne⟩ := h d (by simp)
    have hrest : ∀ e ∈ rest, goodTok e.1 ∧ goodTok e.2 ∧ e.1 ≠ [] :=
      fun e he => h e (List.mem_cons_of_mem d he)
    rw [List.map_cons, List.find?_cons]
    by_cases hnext : d.2 = ['n', 'e', 'x', 't']
    · have hb : (d.2 == ['n', 'e', 'x', 't']) = true := by rw [hnext]; exact beq_self_eq_true _
      have hsub : hasSub relNextChars (mkPart d.1 d.2) = true :=
        (hasSub_mkPart_iff d.1 d.2 hu hr).mpr hnext
      have hlen : 0 < d.1.length := List.length_pos.mpr hne
      have hguard : (0 : Int) < pyFind '<' (mkPart d.1 d.2) + 1
          ∧ pyFind '<' (mkPart d.1 d.2) + 1 < pyFind '>' (mkPart d.1 d.2) := by
        rw [pyFind_mkPart_langle, pyFind_mkPart_rangle d.1 d.2 hu]
        constructor
        · omega
        · omega
      simp only [scanParts, hsub, if_pos, if_true, hguard, and_self, hb]
      rw [pyFind_mkPart_langle, pyFind_mkPart_rangle d.1 d.2 hu]
      have : (0 : Int) + 1 = 1 := by omega
      rw [this, pySlice_mkPart]
      rfl
    · have hb : (d.2 == ['n', 'e', 'x', 't']) = false := by
        simp only [beq_eq_false_iff_ne, ne_eq]
        exact hnext
      have hsub : hasSub relNextChars (mkPart d.1 d.2) = false := by
        cases hx : hasSub relNextChars (mkPart d.1 d.2) with
        | false => rfl
        | true => exact absurd ((hasSub_mkPart_iff d.1 d.2 hu hr).mp hx) hnext
      simp only [scanParts, hsub, Bool.false_eq_true, if_false, hb]
      exact ih hrest

/-- C6.  For every link header consisting of well-formed,
comma-separated descriptors `<url>; rel="value"` (URLs and values free
of the structural characters, URLs nonempty), `parse_next_link`
returns exactly the URL of the first descriptor whose relation value
is `next`, and nothing when no descriptor has relation value `next`;
an absent header also yields nothing. -/
theorem parse_next_link_finds_next (ds : List (List Char × List Char))
    (h : ∀ d ∈ ds, goodTok d.1 ∧ goodTok d.2 ∧ d.1 ≠ []) :
    parse_next_link (some (String.mk (mkHeader ds)))
      = (ds.find? (fun d => d.2 == ['n', 'e', 'x', 't'])).map (fun d => String.mk d.1)
  ∧ parse_next_link none = none := by
  refine ⟨?_, rfl⟩
  cases ds with
  | nil => rfl
  | cons d rest =>
    have hemp : (String.mk (mkHeader (d :: rest))).data.isEmpty = false := by
      cases rest <;> rfl
    have hdata : (String.mk (mkHeader (d :: rest))).data = mkHeader (d :: rest) := rfl
    simp only [parse_next_link, hemp, Bool.false_eq_true, if_false, hdata]
    have hsplit : pySplit ',' (mkHeader (d :: rest))
        = mkPart d.1 d.2 :: rest.map (fun e => ' ' :: mkPart e.1 e.2) := by
      unfold pySplit
      rw [splitAux_mkHeader rest d [] (fun e he => ⟨(h e he).1, (h e he).2.1⟩)]
      rfl
    rw [hsplit, List.map_cons, strip_mkPart, List.map_map]
    have hmaps : (pyStrip ∘ fun e : List Char × List Char => ' ' :: mkPart e.1 e.2)
        = fun e : List Char × List Char => mkPart e.1 e.2 :=
      funext fun e => strip_space_mkPart e.1 e.2
    rw [hmaps]
    have hparts : mkPart d.1 d.2 :: rest.map (fun e => mkPart e.1 e.2)
        = (d :: rest).map (fun e => mkPart e.1 e.2) := rfl
    rw [hparts, scanParts_mkParts (d :: rest) h, Option.map_map]
    rfl

/-- Witness for C6 at the spec's example header: the built header is
exactly the example string, and parsing extracts the `next` URL. -/
theorem parse_next_link_finds_next_witness :
    String.mk (mkHeader [("https://api.x/y?page=2".data, "next".data),
        ("https://api.x/y?page=1".data, "prev".data)])
      = "<https://api.x/y?page=2>; rel=\"next\", <https://api.x/y?page=1>; rel=\"prev\""
  ∧ parse_next_link (some (String.mk (mkHeader [("https://api.x/y?page=2".data, "next".data),
        ("https://api.x/y?page=1".data, "prev".data)])))
      = some "https://api.x/y?page=2" := by
  constructor
  · decide
  · have h := (parse_next_link_finds_next
      [("https://api.x/y?page=2".data, "next".data),
       ("https://api.x/y?page=1".data, "prev".data)] (by decide)).1
    rw [h]
    decide
